import Mathlib

/-!
Verification development for the FinBoard core engines:
the response normalizer (`src/utils/dataMapper.ts`), the adaptive cache
(`AdaptiveCache`), the rate limiter (`SmartRateLimiter`) and the request
gatekeeper (`fetchJson` in `src/utils/apiClient.ts`).

Modelling conventions:
* JSON values are the inductive `JsonVal`; JavaScript numbers are modelled
  as exact rationals (`ℚ`), timestamps (`Date.now()`) as `Int` milliseconds.
* The in-memory `Map` objects are modelled as functions `String → Option α`
  updated with `mapUpdate`.
* `Math.sqrt` and the payload hash (`JSON.stringify` + 32-bit rolling hash)
  are abstracted as explicit function parameters `sqrtFn : ℚ → ℚ` and
  `hashFn : JsonVal → String`; every theorem is universally quantified over
  them, so no result depends on their concrete values.
* JavaScript truthiness is modelled by `truthy`; character classes of the
  regexes in `dataMapper.ts` are modelled over ASCII (`\w`, `\d`, `\s`,
  `toLowerCase`), which agrees with JavaScript on all ASCII inputs.
-/

/-- A JSON-like value: the tree-shaped payloads the normalizer processes.
Objects are insertion-ordered key/value lists (JavaScript object semantics). -/
inductive JsonVal where
  | null : JsonVal
  | bool (b : Bool) : JsonVal
  | num (q : ℚ) : JsonVal
  | str (s : String) : JsonVal
  | arr (l : List JsonVal) : JsonVal
  | obj (l : List (String × JsonVal)) : JsonVal

/-- JavaScript truthiness of a JSON value (`NaN` does not arise in the
exact-rational model). -/
def truthy : JsonVal → Bool
  | .null => false
  | .bool b => b
  | .num q => decide (q ≠ 0)
  | .str s => decide (s ≠ "")
  | .arr _ => true
  | .obj _ => true

/-- `typeof v === "object"` is true for objects and arrays (and for `null`,
handled separately where it matters). -/
def isObjLike : JsonVal → Bool
  | .obj _ => true
  | .arr _ => true
  | _ => false

/-- JavaScript property access `v.k` for a non-numeric property name `k`:
defined (`some`) only on objects that carry the key. -/
def jsField : JsonVal → String → Option JsonVal
  | .obj l, k => (l.find? (fun kv => kv.1 = k)).map (·.2)
  | _, _ => none

/-- `Object.keys(v)`: field names of an object, index strings of an array. -/
def jsKeys : JsonVal → List String
  | .obj l => l.map (·.1)
  | .arr l => (List.range l.length).map toString
  | _ => []

/-- JavaScript `a || b` over possibly-undefined values: the first operand
that is present and truthy, else the second. -/
def jsOrV (a b : Option JsonVal) : Option JsonVal :=
  match a with
  | some x => if truthy x then some x else b
  | none => b

/- ### Character classes of the `dataMapper.ts` regexes (ASCII model) -/

/-- `\s` (the whitespace removed by `String.trim`), ASCII fragment
(space, tab, newline, carriage return by code point). -/
def isWsChar (c : Char) : Bool :=
  c.toNat = 32 || c.toNat = 9 || c.toNat = 10 || c.toNat = 13

/-- `[A-Z]` (code points 65–90). -/
def isUpperL (c : Char) : Bool := 65 ≤ c.toNat && c.toNat ≤ 90

/-- `\d` = `[0-9]` (code points 48–57). -/
def isDigitL (c : Char) : Bool := 48 ≤ c.toNat && c.toNat ≤ 57

/-- `\w` = `[A-Za-z0-9_]`. -/
def isWordChar (c : Char) : Bool :=
  isDigitL c || (97 ≤ c.toNat && c.toNat ≤ 122) || isUpperL c ||
    c.toNat = 95

/-- Drop matching characters from both ends of a character list: the common
shape of `String.trim` and of `.replace(/^_+|_+$/g, "")`. -/
def trimEnds (p : Char → Bool) (l : List Char) : List Char :=
  (((l.dropWhile p).reverse).dropWhile p).reverse

/-- `String(key).trim()`. -/
def jsTrimL (l : List Char) : List Char := trimEnds isWsChar l

/-- `/^[A-Z]{2,}$/` — a preserved all-caps ticker-like key. -/
def allCapsL (l : List Char) : Bool := 2 ≤ l.length && l.all isUpperL

/-- `/^\d{4}-\d{2}-\d{2}$/` — a preserved ISO-date-like key. -/
def isDateL (l : List Char) : Bool :=
  match l with
  | [y1, y2, y3, y4, h1, m1, m2, h2, d1, d2] =>
    isDigitL y1 && isDigitL y2 && isDigitL y3 && isDigitL y4 && h1 = '-' &&
      isDigitL m1 && isDigitL m2 && h2 = '-' && isDigitL d1 && isDigitL d2
  | _ => false

/-- `.replace(/^\d+\.\s*/, "")` — strip a leading "1. " style numeric label. -/
def stripLeadingNum (l : List Char) : List Char :=
  let ds := l.takeWhile isDigitL
  if ds.isEmpty then l
  else
    match l.drop ds.length with
    | '.' :: rest => rest.dropWhile isWsChar
    | _ => l

/-- `.toLowerCase()`, ASCII model (`Char.toLower` lowers exactly `A`–`Z`). -/
def lowerL (l : List Char) : List Char := l.map Char.toLower

/-- Worker for `.replace(/[^\w]+/g, "_")`: the flag records whether the
previous character was part of a non-word run already replaced. -/
def collapseAux : Bool → List Char → List Char
  | _, [] => []
  | inRun, c :: rest =>
    if isWordChar c then c :: collapseAux false rest
    else if inRun then collapseAux true rest
    else '_' :: collapseAux true rest

/-- `.replace(/[^\w]+/g, "_")` — each maximal run of non-word characters
becomes a single underscore. -/
def collapseNonWord (l : List Char) : List Char := collapseAux false l

/-- `.replace(/^_+|_+$/g, "")`. -/
def trimUnderscoresL (l : List Char) : List Char := trimEnds (· = '_') l

/-- `sanitizeKey` on the character list (dataMapper.ts lines 7–17). -/
def sanitizeKeyL (l : List Char) : List Char :=
  let t := jsTrimL l
  if allCapsL t then t
  else if isDateL t then t
  else trimUnderscoresL (collapseNonWord (lowerL (stripLeadingNum t)))

/-- `sanitizeKey` (dataMapper.ts lines 7–17): trims, preserves all-caps
tickers and ISO dates, otherwise lower_snake_cases the key. -/
def sanitizeKey (s : String) : String := String.mk (sanitizeKeyL s.data)

/- ### coerceValue -/

/-- `/^[+-]?\d+(\.\d+)?$/` applied after the sign, i.e. `\d+(\.\d+)?$`. -/
def numericBody (l : List Char) : Bool :=
  let ds := l.takeWhile isDigitL
  !ds.isEmpty &&
    match l.drop ds.length with
    | [] => true
    | '.' :: rest => !rest.isEmpty && rest.all isDigitL
    | _ => false

/-- `/^[+-]?\d+(\.\d+)?$/`. -/
def isNumericString (l : List Char) : Bool :=
  match l with
  | '+' :: rest => numericBody rest
  | '-' :: rest => numericBody rest
  | _ => numericBody l

/-- Decimal digits to a natural number. -/
def digitsToNat (l : List Char) : Nat :=
  l.foldl (fun a c => a * 10 + (c.toNat - 48)) 0

/-- `Number(trimmed)` for a string matching `isNumericString`, in the
exact-rational model of JavaScript numbers. -/
def parseNumber (l : List Char) : ℚ :=
  let sb : ℚ × List Char :=
    match l with
    | '+' :: rest => (1, rest)
    | '-' :: rest => (-1, rest)
    | _ => (1, l)
  let ds := sb.2.takeWhile isDigitL
  let intPart : ℚ := (digitsToNat ds : ℚ)
  let frac : ℚ :=
    match sb.2.drop ds.length with
    | '.' :: rest => (digitsToNat rest : ℚ) / ((10 : ℚ) ^ rest.length)
    | _ => 0
  sb.1 * (intPart + frac)

/-- `coerceValue` (dataMapper.ts lines 19–28): a string whose trimmed form is
purely numeric becomes a number (`Number` of a matching string is never NaN,
so the `Number.isNaN` guard in the source never fires); everything else is
returned unchanged. -/
def coerceValue (v : JsonVal) : JsonVal :=
  match v with
  | .str s =>
    let t := jsTrimL s.data
    if isNumericString t then .num (parseNumber t) else .str s
  | v => v

/- ### deepNormalize -/

/-- JavaScript object assignment `out[k] = v`: an existing key keeps its
position and takes the new value, a new key is appended. -/
def objInsert (l : List (String × JsonVal)) (k : String) (v : JsonVal) :
    List (String × JsonVal) :=
  if l.any (fun kv => kv.1 = k) then
    l.map (fun kv => if kv.1 = k then (k, v) else kv)
  else l ++ [(k, v)]

mutual
/-- `deepNormalize` (dataMapper.ts lines 30–40): arrays element-wise, object
entries in order through `out[sanitizeKey k] = deepNormalize v`, primitives
through `coerceValue`. -/
def deepNormalize : JsonVal → JsonVal
  | .arr l => .arr (deepNormalizeList l)
  | .obj l =>
    .obj ((deepNormalizeEntries l).foldl
      (fun acc kv => objInsert acc kv.1 kv.2) [])
  | v => coerceValue v

/-- `value.map(deepNormalize)` on an array's elements. -/
def deepNormalizeList : List JsonVal → List JsonVal
  | [] => []
  | x :: xs => deepNormalize x :: deepNormalizeList xs

/-- The `Object.entries` loop body of `deepNormalize`, before the
assignments into `out`. -/
def deepNormalizeEntries : List (String × JsonVal) → List (String × JsonVal)
  | [] => []
  | e :: xs => (sanitizeKey e.1, deepNormalize e.2) :: deepNormalizeEntries xs
end

theorem deepNormalizeList_eq_map (l : List JsonVal) :
    deepNormalizeList l = l.map deepNormalize := by
  induction l with
  | nil => rfl
  | cons x xs ih => simp [deepNormalizeList, ih]

theorem deepNormalizeEntries_eq_map (l : List (String × JsonVal)) :
    deepNormalizeEntries l =
      l.map (fun e => (sanitizeKey e.1, deepNormalize e.2)) := by
  induction l with
  | nil => rfl
  | cons x xs ih => simp [deepNormalizeEntries, ih]

theorem deepNormalize_arr (l : List JsonVal) :
    deepNormalize (.arr l) = .arr (l.map deepNormalize) := by
  rw [deepNormalize, deepNormalizeList_eq_map]

theorem deepNormalize_obj (l : List (String × JsonVal)) :
    deepNormalize (.obj l) =
      .obj ((l.map (fun e => (sanitizeKey e.1, deepNormalize e.2))).foldl
        (fun acc kv => objInsert acc kv.1 kv.2) []) := by
  rw [deepNormalize, deepNormalizeEntries_eq_map]

/- ### The adapter chain of `normalizeData` (dataMapper.ts lines 42–199)

Each adapter is a `detect`/`normalize` pair.  The `normalize` functions are
total here: on every input accepted by the corresponding `detect` the source
function cannot throw, and the chain only applies `normalize` under `detect`.
Fields that would be JavaScript `undefined` inside a constructed object (a
corner reachable only in `paginatedNormalize`) are modelled as `null`. -/

/-- `v.k` exists and is truthy. -/
def truthyField (v : JsonVal) (k : String) : Bool :=
  match jsField v k with
  | some x => truthy x
  | none => false

/-- `/^\d+\.\s+/` — an Alpha-Vantage style `"1. open"` key. -/
def numDotWsKey (l : List Char) : Bool :=
  let ds := l.takeWhile isDigitL
  !ds.isEmpty &&
    match l.drop ds.length with
    | '.' :: rest => !(rest.takeWhile isWsChar).isEmpty
    | _ => false

/-- `Array.isArray(v.k)`. -/
def isArrField (v : JsonVal) (k : String) : Bool :=
  match jsField v k with
  | some (.arr _) => true
  | _ => false

def alphaVantageDetect (v : JsonVal) : Bool :=
  isObjLike v &&
    (let ks := jsKeys v
     ks.contains "Meta Data" || ks.contains "Global Quote" ||
       ks.contains "Time Series (Daily)" ||
       ks.contains "Realtime Currency Exchange Rate" ||
       ks.any (fun k => k.startsWith "Time Series") ||
       ks.any (fun k => numDotWsKey k.data))

def alphaVantageNormalize (v : JsonVal) : JsonVal :=
  .obj [("data", deepNormalize v)]

def coinbaseDetect (v : JsonVal) : Bool :=
  isObjLike v &&
    match jsField v "data" with
    | some d =>
      truthy d && (truthyField d "currency" || truthyField d "rates" ||
        truthyField d "base")
    | none => false

def coinbaseNormalize (v : JsonVal) : JsonVal :=
  .obj [("data", deepNormalize ((jsField v "data").getD .null))]

def graphqlDetect (v : JsonVal) : Bool :=
  isObjLike v && (jsField v "data").isSome && (jsField v "errors").isNone

def graphqlNormalize (v : JsonVal) : JsonVal :=
  .obj [("data", deepNormalize ((jsField v "data").getD .null))]

def restApiDetect (v : JsonVal) : Bool :=
  isObjLike v &&
    ((match jsField v "success" with
      | some (.bool true) => true
      | _ => false) ||
     (match jsField v "status" with
      | some (.str s) => s = "success"
      | _ => false)) &&
    (jsField v "data").isSome

def restApiNormalize (v : JsonVal) : JsonVal :=
  .obj [("data", deepNormalize ((jsField v "data").getD .null))]

/-- `Array.isArray(v)`. -/
def isArr : JsonVal → Bool
  | .arr _ => true
  | _ => false

def paginatedDetect (v : JsonVal) : Bool :=
  isObjLike v &&
    (isArrField v "results" || isArrField v "items" ||
      match jsField v "data" with
      | some d => truthy d && isArr d
      | none => false)

/-- `items.length` where `items` is array or string (else `undefined`,
modelled as absent). -/
def jsLength : JsonVal → Option JsonVal
  | .arr l => some (.num l.length)
  | .str s => some (.num s.length)
  | _ => none

def paginatedNormalize (v : JsonVal) : JsonVal :=
  let items := (jsOrV (jsField v "results")
    (jsOrV (jsField v "items") (jsField v "data"))).getD .null
  .obj [("data", .obj [
    ("items", deepNormalize items),
    ("pagination", .obj [
      ("page", (jsOrV (jsField v "page")
        (jsOrV (jsField v "current_page") (some (.num 1)))).getD .null),
      ("total", (jsOrV (jsField v "total")
        (jsOrV (jsField v "total_count") (jsLength items))).getD .null),
      ("per_page", (jsOrV (jsField v "per_page")
        (jsOrV (jsField v "page_size") (jsLength items))).getD .null)])])]

/-- One key of a date-keyed time series: `/^\d{4}-\d{2}-\d{2}/` (prefix
match, not anchored at the end). -/
def hasDatePrefixL (l : List Char) : Bool :=
  match l with
  | y1 :: y2 :: y3 :: y4 :: h1 :: m1 :: m2 :: h2 :: d1 :: d2 :: _ =>
    isDigitL y1 && isDigitL y2 && isDigitL y3 && isDigitL y4 && h1 = '-' &&
      isDigitL m1 && isDigitL m2 && h2 = '-' && isDigitL d1 && isDigitL d2
  | _ => false

def timeSeriesDetect (v : JsonVal) : Bool :=
  isObjLike v &&
    (let ks := jsKeys v
     let dc := (ks.filter (fun k => hasDatePrefixL k.data)).length
     decide (0 < dc) && decide ((dc : ℚ) / (ks.length : ℚ) > 1 / 2))

def timeSeriesNormalize (v : JsonVal) : JsonVal :=
  .obj [("data", .obj [("time_series", deepNormalize v)])]

/-- `Object.prototype.hasOwnProperty.call(input, "data")` on an object-like
value (false on arrays, whose named properties are all absent). -/
def genericDataDetect (v : JsonVal) : Bool :=
  isObjLike v && (jsField v "data").isSome

def genericDataNormalize (v : JsonVal) : JsonVal :=
  .obj [("data", deepNormalize ((jsField v "data").getD .null))]

/-- The terminal fallback adapter (dataMapper.ts lines 151–170).  Note
`typeof null === "object"` in JavaScript, so a top-level `data: null` also
counts as an object for the one-level unwrap test. -/
def universalNormalize (v : JsonVal) : JsonVal :=
  match v with
  | .null => .obj [("data", .null)]
  | .arr l =>
    let normalized := deepNormalize (.arr l)
    .obj [("data", normalized)]
  | .obj l =>
    let normalized := deepNormalize (.obj l)
    let hasTopLevelData :=
      match jsField normalized "data" with
      | some d => isObjLike d || (match d with | .null => true | _ => false)
      | none => false
    if hasTopLevelData && (jsKeys normalized).length = 1 then
      .obj [("data", (jsField normalized "data").getD .null)]
    else .obj [("data", normalized)]
  | v => .obj [("data", .obj [("value", coerceValue v)])]

/-- `normalizeData` (dataMapper.ts lines 183–199): the first adapter whose
`detect` accepts the payload rewrites it.  Every `normalize` above returns a
truthy object and cannot throw under its `detect`, so the source's
`normalized && typeof normalized === "object"` re-check and the
try/catch-continue never skip an adapter that detected. -/
def normalizeData (raw : JsonVal) : JsonVal :=
  if alphaVantageDetect raw then alphaVantageNormalize raw
  else if coinbaseDetect raw then coinbaseNormalize raw
  else if graphqlDetect raw then graphqlNormalize raw
  else if restApiDetect raw then restApiNormalize raw
  else if paginatedDetect raw then paginatedNormalize raw
  else if timeSeriesDetect raw then timeSeriesNormalize raw
  else if genericDataDetect raw then genericDataNormalize raw
  else universalNormalize raw

/- ### Maps

The `Map<string, _>` instances of the cache and the rate limiter are
modelled as functions `String → Option α`. -/

/-- `map.set(k, v)`. -/
def mapUpdate {α : Type} (m : String → Option α) (k : String) (v : α) :
    String → Option α :=
  fun k' => if k' = k then some v else m k'

theorem mapUpdate_self {α : Type} (m : String → Option α) (k : String)
    (v : α) : mapUpdate m k v k = some v := by
  simp [mapUpdate]

theorem mapUpdate_other {α : Type} (m : String → Option α) (k k' : String)
    (v : α) (h : k' ≠ k) : mapUpdate m k v k' = m k' := by
  simp [mapUpdate, h]

/- ### AdaptiveCache and its change profiler (src/unnamed/part_000)

`Math.sqrt` (used only for the standard deviation in
`analyzeUpdatePattern`) and `hashData` (`JSON.stringify` plus a 32-bit
rolling hash, whose concrete value never matters — only hash equality
between samples does) are abstracted as explicit parameters `sqrtFn` and
`hashFn`; every theorem below holds for all of them. -/

/-- One entry of `APIProfile.samples`. -/
structure DataSnapshot where
  hash : String
  timestamp : Int
  value : JsonVal

/-- The per-endpoint learning profile (part_000 lines 10–18).
`updateFrequency` and `confidence` are JavaScript numbers, modelled as
exact rationals. -/
structure APIProfile where
  url : String
  updateFrequency : Option ℚ
  samples : List DataSnapshot
  lastCheck : Int
  confidence : ℚ
  isRealtime : Bool
  recommendedTTL : Int

def MIN_SAMPLES : Nat := 5
def MAX_SAMPLES : Nat := 20
def MIN_TTL : Int := 5 * 1000
def MAX_TTL : Int := 24 * 60 * 60 * 1000
def DEFAULT_TTL : Int := 60 * 1000

/-- The profile created lazily on a key's first observation
(part_000 lines 147–158). -/
def defaultProfile (key : String) (now : Int) : APIProfile :=
  { url := key, updateFrequency := none, samples := [], lastCheck := now,
    confidence := 0, isRealtime := false, recommendedTTL := DEFAULT_TTL }

/-- The `changes` list of `analyzeUpdatePattern` (part_000 lines 175–182):
time deltas of the consecutive sample pairs whose hashes differ. -/
def changeIntervals : List DataSnapshot → List Int
  | a :: b :: rest =>
    (if b.hash ≠ a.hash then [b.timestamp - a.timestamp] else []) ++
      changeIntervals (b :: rest)
  | _ => []

/-- `analyzeUpdatePattern` (part_000 lines 173–219).  The non-static branch
takes the mean and population standard deviation of `changeIntervals`
(`sqrtFn` standing for `Math.sqrt`), derives a confidence from the
coefficient of variation, and clamps `floor(avg * 0.8)` to
`[MIN_TTL, MAX_TTL]`. -/
def analyzeUpdatePattern (sqrtFn : ℚ → ℚ) (p : APIProfile) : APIProfile :=
  let changes := changeIntervals p.samples
  match changes with
  | [] =>
    { p with
      updateFrequency := none
      isRealtime := false
      recommendedTTL := MAX_TTL
      confidence := 90 }
  | _ =>
    let avg : ℚ := ((changes.map (fun c => (c : ℚ))).sum) / changes.length
    let variance : ℚ :=
      ((changes.map (fun c => ((c : ℚ) - avg) ^ 2)).sum) / changes.length
    let stdDev := sqrtFn variance
    let coefficientOfVariation := stdDev / avg
    { p with
      isRealtime := decide (avg < 60 * 1000)
      confidence := max 0 (min 100 (100 - coefficientOfVariation * 100))
      updateFrequency := some avg
      recommendedTTL :=
        max MIN_TTL (min MAX_TTL (Int.floor (avg * (8 / 10)))) }

/-- The history trim of `learnFromData` (part_000 lines 162–164):
`samples.slice(-MAX_SAMPLES)` applied when the bound is exceeded. -/
def trimmedSamples (samples1 : List DataSnapshot) : List DataSnapshot :=
  if samples1.length > MAX_SAMPLES then
    samples1.drop (samples1.length - MAX_SAMPLES)
  else samples1

/-- `learnFromData` (part_000 lines 142–171): get or create the profile,
append the new snapshot, trim the history to the last `MAX_SAMPLES`,
analyze once at least `MIN_SAMPLES` are present, and stamp `lastCheck`. -/
def learnFromData (sqrtFn : ℚ → ℚ) (hashFn : JsonVal → String)
    (p? : Option APIProfile) (key : String) (data : JsonVal) (now : Int) :
    APIProfile :=
  let p := p?.getD (defaultProfile key now)
  let samples2 := trimmedSamples (p.samples ++ [⟨hashFn data, now, data⟩])
  let p1 := { p with samples := samples2 }
  let p2 :=
    if samples2.length ≥ MIN_SAMPLES then analyzeUpdatePattern sqrtFn p1
    else p1
  { p2 with lastCheck := now }

/-- `getAdaptiveTTL` (part_000 lines 221–237). -/
def getAdaptiveTTL (p? : Option APIProfile) : Int :=
  match p? with
  | none => DEFAULT_TTL
  | some p =>
    if p.confidence > 70 then p.recommendedTTL
    else if p.isRealtime then MIN_TTL
    else DEFAULT_TTL

/-- The mutable state of one `AdaptiveCache` instance: the value map, the
expiration map and the profile map. -/
structure CacheState where
  cache : String → Option JsonVal
  expirations : String → Option Int
  profiles : String → Option APIProfile

/-- `AdaptiveCache.get` (part_000 lines 100–115).  `!cached` and
`!expiration` are JavaScript truthiness tests, so a falsy stored value or a
zero expiration also reads as a miss. -/
def cacheGet (st : CacheState) (key : String) (now : Int) : Option JsonVal :=
  match st.cache key with
  | none => none
  | some v =>
    if !truthy v then none
    else
      match st.expirations key with
      | none => none
      | some e => if e = 0 then none else if now > e then none else some v

/-- `AdaptiveCache.getEvenIfExpired` (part_000 lines 118–124):
`return cached || null` — the expiration map is never consulted, and a
falsy stored value reads as absent. -/
def getEvenIfExpired (st : CacheState) (key : String) : Option JsonVal :=
  match st.cache key with
  | none => none
  | some v => if truthy v then some v else none

/-- `AdaptiveCache.set` (part_000 lines 127–140): learn from the payload,
pick the adaptive TTL from the (just-updated) profile, store the value and
its expiration instant. -/
def cacheSet (sqrtFn : ℚ → ℚ) (hashFn : JsonVal → String) (st : CacheState)
    (key : String) (data : JsonVal) (now : Int) : CacheState :=
  let p := learnFromData sqrtFn hashFn (st.profiles key) key data now
  let profiles' := mapUpdate st.profiles key p
  let ttl := getAdaptiveTTL (profiles' key)
  { cache := mapUpdate st.cache key data,
    expirations := mapUpdate st.expirations key (now + ttl),
    profiles := profiles' }

/- ### SmartRateLimiter (src/unnamed/part_004) -/

/-- `APIQuota.detectedLimits` (part_004 lines 10–14). -/
structure DetectedLimits where
  requestsPerMinute : Int
  remainingCalls : Int
  resetTime : Option Int
deriving DecidableEq

/-- `APIQuota` (part_004 lines 1–17). -/
structure APIQuota where
  url : String
  requestCount : Int
  requestsThisMinute : Int
  requestsThisHour : Int
  minuteStartTime : Int
  hourStartTime : Int
  lastRequestTime : Int
  throttledUntil : Option Int
  detectedLimits : Option DetectedLimits
  customRetryAfter : Option Int
  consecutiveErrors : Int
deriving DecidableEq

/-- The `LIMITS` constants (part_004 lines 24–30). -/
def maxRequestsPerMinute : Int := 30
def maxRequestsPerHour : Int := 200
def minDelayBetweenRequests : Int := 500
def maxConsecutiveErrors : Int := 3

/-- `getOrCreateQuota` (part_004 lines 284–300): the stored quota, or a
fresh zeroed one whose windows start now. -/
def getOrCreateQuota (quotas : String → Option APIQuota) (key : String)
    (now : Int) : APIQuota :=
  (quotas key).getD
    { url := key, requestCount := 0, requestsThisMinute := 0,
      requestsThisHour := 0, minuteStartTime := now, hourStartTime := now,
      lastRequestTime := 0, throttledUntil := none, detectedLimits := none,
      customRetryAfter := none, consecutiveErrors := 0 }

/-- The lazy window reset at the top of `canMakeRequest` and
`recordSuccess` (part_004 lines 88–98 and 159–166). -/
def normalizeWindows (q : APIQuota) (now : Int) : APIQuota :=
  let q1 :=
    if now - q.minuteStartTime > 60000 then
      { q with requestsThisMinute := 0, minuteStartTime := now }
    else q
  if now - q1.hourStartTime > 3600000 then
    { q1 with requestsThisHour := 0, hourStartTime := now }
  else q1

/-- Why a request was denied (the `reason` strings of the source,
as an enumeration). -/
inductive DenyReason where
  | throttled | minuteLimit | hourLimit | tooFast | backoff
deriving DecidableEq

/-- The result of `canMakeRequest`: `allowed: true`, or `allowed: false`
with a reason and `retryAfter` seconds. -/
inductive RateCheck where
  | allowed : RateCheck
  | denied (reason : DenyReason) (retryAfter : Int) : RateCheck
deriving DecidableEq

/-- `Math.ceil(ms / 1000)` in the exact-rational model. -/
def ceilDivSec (ms : Int) : Int := Int.ceil ((ms : ℚ) / 1000)

/-- `quota.throttledUntil && now < quota.throttledUntil` — JavaScript
truthiness: `null` and `0` both fail the first conjunct. -/
def throttleActive (t? : Option Int) (now : Int) : Bool :=
  match t? with
  | some t => t ≠ 0 && now < t
  | none => false

/-- The denial cascade of `canMakeRequest` (part_004 lines 100–151),
applied to the window-normalized quota. -/
def rateCheckOf (q : APIQuota) (now : Int) : RateCheck :=
  if throttleActive q.throttledUntil now then
    .denied .throttled (ceilDivSec ((q.throttledUntil.getD 0) - now))
  else if q.requestsThisMinute ≥ maxRequestsPerMinute then
    .denied .minuteLimit (ceilDivSec (q.minuteStartTime + 60000 - now))
  else if q.requestsThisHour ≥ maxRequestsPerHour then
    .denied .hourLimit (ceilDivSec (q.hourStartTime + 3600000 - now))
  else if now - q.lastRequestTime < minDelayBetweenRequests then
    .denied .tooFast
      (ceilDivSec (minDelayBetweenRequests - (now - q.lastRequestTime)))
  else if q.consecutiveErrors ≥ maxConsecutiveErrors then
    .denied .backoff
      (Int.ceil ((3 / 2 : ℚ) ^ ((q.consecutiveErrors - 3).toNat) * 5000
        / 1000))
  else .allowed

/-- `canMakeRequest` (part_004 lines 80–152): normalize the windows (and
store the normalized quota), then run the denial cascade. -/
def canMakeRequest (quotas : String → Option APIQuota) (key : String)
    (now : Int) : (String → Option APIQuota) × RateCheck :=
  let q := normalizeWindows (getOrCreateQuota quotas key now) now
  (mapUpdate quotas key q, rateCheckOf q now)

/-- `recordSuccess` (part_004 lines 155–180): normalize windows, bump all
counters, stamp `lastRequestTime`, clear errors and throttle. -/
def recordSuccess (quotas : String → Option APIQuota) (key : String)
    (now : Int) : String → Option APIQuota :=
  let q := normalizeWindows (getOrCreateQuota quotas key now) now
  mapUpdate quotas key
    { q with
      requestCount := q.requestCount + 1
      requestsThisMinute := q.requestsThisMinute + 1
      requestsThisHour := q.requestsThisHour + 1
      lastRequestTime := now
      consecutiveErrors := 0
      throttledUntil := none }

/-- `recordError` (part_004 lines 183–193). -/
def recordError (quotas : String → Option APIQuota) (key : String)
    (now : Int) : String → Option APIQuota :=
  let q := getOrCreateQuota quotas key now
  mapUpdate quotas key
    { q with
      consecutiveErrors := q.consecutiveErrors + 1
      lastRequestTime := now }

/-- `handleRateLimitError` (part_004 lines 196–206). -/
def handleRateLimitError (quotas : String → Option APIQuota) (key : String)
    (now : Int) (retryAfterSeconds : Int) : String → Option APIQuota :=
  let q := getOrCreateQuota quotas key now
  mapUpdate quotas key
    { q with
      throttledUntil := some (now + retryAfterSeconds * 1000)
      consecutiveErrors := 0 }

/-- The rate-limit response headers `learnFromHeaders` scans, with numeric
values already parsed: `pat1`/`pat2`/`pat3` are the `x-ratelimit-*`,
`ratelimit-*` and `x-rate-limit-*` triples (present iff both the limit and
the remaining header exist), `retryAfter` is the parsed `retry-after`
header (absent when missing or NaN). -/
structure HeadersInfo where
  pat1 : Option (Int × Int × Option Int)
  pat2 : Option (Int × Int × Option Int)
  pat3 : Option (Int × Int × Option Int)
  retryAfter : Option Int
deriving DecidableEq

/-- `learnFromHeaders` (part_004 lines 209–243): the first header pattern
with both limit and remaining present records `detectedLimits`; a
non-positive remaining immediately throttles via `handleRateLimitError`
with the header reset time (or a 60s default). -/
def learnFromHeaders (quotas : String → Option APIQuota) (key : String)
    (now : Int) (h : HeadersInfo) : String → Option APIQuota :=
  let q := getOrCreateQuota quotas key now
  match h.pat1 <|> h.pat2 <|> h.pat3 with
  | none => mapUpdate quotas key q
  | some (limit, remaining, reset?) =>
    let dl : DetectedLimits := ⟨limit, remaining, reset?.map (· * 1000)⟩
    let quotas' := mapUpdate quotas key { q with detectedLimits := some dl }
    if remaining ≤ 0 then
      handleRateLimitError quotas' key now (reset?.getD 60)
    else quotas'

/- ### The request gatekeeper `fetchJson` (src/utils/apiClient.ts) -/

/-- What the body of a completed transport response parses to:
a JSON value (`content-type` includes `application/json` and
`response.json()` succeeded), a JSON parse failure, an HTML body, or a
plain-text body. -/
inductive BodyOutcome where
  | jsonOk (v : JsonVal) : BodyOutcome
  | jsonBad : BodyOutcome
  | htmlBody : BodyOutcome
  | textBody (t : JsonVal) : BodyOutcome

/-- The transport collaborator's behaviour for this poll: `fetch` either
throws or returns a response with a status, headers and a body. -/
inductive TransportOutcome where
  | throws : TransportOutcome
  | responds (status : Nat) (headers : HeadersInfo) (body : BodyOutcome) :
      TransportOutcome

/-- The side-effect calls `fetchJson` makes, in order. -/
inductive Event where
  | transportCall | recordSuccessEv | learnFromHeadersEv
  | handleRateLimitEv | recordErrorEv | cacheSetEv
deriving DecidableEq

/-- The caller-facing result, without the presentational `message` and
`quotaInfo` fields (their contents are derived from the state returned
alongside). -/
structure FetchResult where
  ok : Bool
  data : Option JsonVal
  cached : Bool
  learningMode : Option Bool

/-- The combined mutable state `fetchJson` touches. -/
structure GateState where
  quotas : String → Option APIQuota
  cacheSt : CacheState

/-- The proxy-envelope unwrap on a 2xx JSON body (apiClient.ts lines
186–191): for an external URL whose JSON has a `data` field, keep only
that field. -/
def unwrapProxy (external : Bool) (v : JsonVal) : JsonVal :=
  if external && (jsField v "data").isSome then (jsField v "data").getD .null
  else v

/-- `learningMode` for a success result (apiClient.ts lines 206–207). -/
def learningOf (profiles : String → Option APIProfile) (key : String) :
    Bool :=
  match profiles key with
  | some p => decide (p.samples.length < 5)
  | none => true

/-- `fetchJson` (apiClient.ts lines 38–259) for one poll.  `urlValid` and
`external` model `new URL(url)` succeeding and `isExternalUrl(url)`;
`tr` is what the transport would do if called.  Returns the new state, the
ordered list of side-effect calls made, and the result. -/
def fetchJson (sqrtFn : ℚ → ℚ) (hashFn : JsonVal → String)
    (urlValid external : Bool) (key : String) (now : Int)
    (tr : TransportOutcome) (st : GateState) :
    GateState × List Event × FetchResult :=
  if !urlValid then (st, [], ⟨false, none, false, none⟩)
  else
    let pair := canMakeRequest st.quotas key now
    let st1 : GateState := { st with quotas := pair.1 }
    match cacheGet st1.cacheSt key now with
    | some v => (st1, [], ⟨true, some v, true, none⟩)
    | none =>
      match pair.2 with
      | .denied _ _ =>
        match getEvenIfExpired st1.cacheSt key with
        | some v => (st1, [], ⟨true, some v, true, none⟩)
        | none => (st1, [], ⟨false, none, false, none⟩)
      | .allowed =>
        match tr with
        | .throws =>
          let st2 := { st1 with quotas := recordError st1.quotas key now }
          (match getEvenIfExpired st2.cacheSt key with
           | some v =>
             (st2, [.transportCall, .recordErrorEv], ⟨true, some v, true, none⟩)
           | none =>
             (st2, [.transportCall, .recordErrorEv], ⟨false, none, false, none⟩))
        | .responds status hdrs body =>
          let st2 := { st1 with quotas := recordSuccess st1.quotas key now }
          let st3 := { st2 with quotas := learnFromHeaders st2.quotas key now hdrs }
          let pre : List Event :=
            [.transportCall, .recordSuccessEv, .learnFromHeadersEv]
          if !(200 ≤ status && status < 300) then
            if status = 429 then
              let retrySec := hdrs.retryAfter.getD 60
              let st4 := { st3 with
                quotas := handleRateLimitError st3.quotas key now retrySec }
              (match getEvenIfExpired st4.cacheSt key with
               | some v =>
                 (st4, pre ++ [.handleRateLimitEv], ⟨true, some v, true, none⟩)
               | none =>
                 (st4, pre ++ [.handleRateLimitEv], ⟨false, none, false, none⟩))
            else
              let st4 := { st3 with quotas := recordError st3.quotas key now }
              (st4, pre ++ [.recordErrorEv], ⟨false, none, false, none⟩)
          else
            match body with
            | .jsonOk v =>
              let d := unwrapProxy external v
              let st4 := { st3 with
                cacheSt := cacheSet sqrtFn hashFn st3.cacheSt key d now }
              (st4, pre ++ [.cacheSetEv],
                ⟨true, some d, false, some (learningOf st4.cacheSt.profiles key)⟩)
            | .jsonBad =>
              let st4 := { st3 with quotas := recordError st3.quotas key now }
              (st4, pre ++ [.recordErrorEv], ⟨false, none, false, none⟩)
            | .htmlBody =>
              let st4 := { st3 with quotas := recordError st3.quotas key now }
              (st4, pre ++ [.recordErrorEv], ⟨false, none, false, none⟩)
            | .textBody t =>
              let st4 := { st3 with
                cacheSt := cacheSet sqrtFn hashFn st3.cacheSt key t now }
              (st4, pre ++ [.cacheSetEv],
                ⟨true, some t, false, some (learningOf st4.cacheSt.profiles key)⟩)

/- ### Helper lemmas on the limiter and profiler -/

theorem normalizeWindows_requestCount (q : APIQuota) (now : Int) :
    (normalizeWindows q now).requestCount = q.requestCount := by
  simp only [normalizeWindows]
  split <;> split <;> rfl

theorem normalizeWindows_minute (q : APIQuota) (now : Int) :
    (normalizeWindows q now).requestsThisMinute = q.requestsThisMinute ∨
      (normalizeWindows q now).requestsThisMinute = 0 := by
  simp only [normalizeWindows]
  split <;> split <;> simp

theorem normalizeWindows_hour (q : APIQuota) (now : Int) :
    (normalizeWindows q now).requestsThisHour = q.requestsThisHour ∨
      (normalizeWindows q now).requestsThisHour = 0 := by
  simp only [normalizeWindows]
  split <;> split <;> simp

theorem analyzeUpdatePattern_samples (sqrtFn : ℚ → ℚ) (p : APIProfile) :
    (analyzeUpdatePattern sqrtFn p).samples = p.samples := by
  simp only [analyzeUpdatePattern]
  split <;> rfl

theorem changeIntervals_eq_nil_of_chain (l : List DataSnapshot)
    (h : List.Chain' (fun a b => a.hash = b.hash) l) :
    changeIntervals l = [] := by
  induction l with
  | nil => rfl
  | cons a t ih =>
    cases t with
    | nil => rfl
    | cons b r =>
      rw [List.chain'_cons] at h
      rw [changeIntervals]
      rw [if_neg (by simp [h.1]), List.nil_append]
      exact ih h.2

theorem trimmedSamples_eq (l : List DataSnapshot) :
    trimmedSamples l = l.drop (l.length - MAX_SAMPLES) := by
  unfold trimmedSamples
  split
  · rfl
  · rename_i h
    have h0 : l.length - MAX_SAMPLES = 0 := by omega
    rw [h0, List.drop_zero]

theorem learnFromData_samples (sqrtFn : ℚ → ℚ) (hashFn : JsonVal → String)
    (p? : Option APIProfile) (key : String) (data : JsonVal) (now : Int) :
    (learnFromData sqrtFn hashFn p? key data now).samples =
      trimmedSamples ((p?.getD (defaultProfile key now)).samples ++
        [⟨hashFn data, now, data⟩]) := by
  simp only [learnFromData]
  split
  · exact analyzeUpdatePattern_samples _ _
  · rfl

theorem learnFromData_fields_of_small (sqrtFn : ℚ → ℚ)
    (hashFn : JsonVal → String) (p? : Option APIProfile) (key : String)
    (data : JsonVal) (now : Int)
    (h : (trimmedSamples ((p?.getD (defaultProfile key now)).samples ++
      [⟨hashFn data, now, data⟩])).length < MIN_SAMPLES) :
    (learnFromData sqrtFn hashFn p? key data now).updateFrequency =
        (p?.getD (defaultProfile key now)).updateFrequency ∧
      (learnFromData sqrtFn hashFn p? key data now).confidence =
        (p?.getD (defaultProfile key now)).confidence ∧
      (learnFromData sqrtFn hashFn p? key data now).isRealtime =
        (p?.getD (defaultProfile key now)).isRealtime ∧
      (learnFromData sqrtFn hashFn p? key data now).recommendedTTL =
        (p?.getD (defaultProfile key now)).recommendedTTL := by
  simp only [learnFromData]
  rw [if_neg (by omega)]
  exact ⟨rfl, rfl, rfl, rfl⟩

/- ### Spec-side definitions for the refinement claims -/

/-- The TTL selection cascade exactly as the specification words it:
(a) no profile → 60s default; (b) `confidencePercent > 70` →
`recommendedTtlMs`; (c) high-frequency → `MIN_TTL` = 5s; (d) default. -/
def selectTtlSpec (p? : Option APIProfile) : Int :=
  match p? with
  | none => 60 * 1000
  | some p =>
    if p.confidence > 70 then p.recommendedTTL
    else if p.isRealtime then 5 * 1000
    else 60 * 1000

/-- Checks (2)–(5) of the specification's `canProceed` denial cascade,
in its order, with the claim's backoff formula
`ceil(1.5^(consecutiveErrors - 3) * 5)` for check (5). -/
def canProceedSpecTail (q : APIQuota) (now : Int) : RateCheck :=
  if q.requestsThisMinute ≥ 30 then
    .denied .minuteLimit (ceilDivSec (q.minuteStartTime + 60000 - now))
  else if q.requestsThisHour ≥ 200 then
    .denied .hourLimit (ceilDivSec (q.hourStartTime + 3600000 - now))
  else if now - q.lastRequestTime < 500 then
    .denied .tooFast (ceilDivSec (500 - (now - q.lastRequestTime)))
  else if q.consecutiveErrors ≥ 3 then
    .denied .backoff
      (Int.ceil ((3 / 2 : ℚ) ^ ((q.consecutiveErrors - 3).toNat) * 5))
  else .allowed

/-- The full specification cascade: check (1) fires whenever
`throttledUntil` is set and in the future, with
`retryAfterSeconds = ceil((throttledUntil - now)/1000)`. -/
def canProceedSpec (q : APIQuota) (now : Int) : RateCheck :=
  match q.throttledUntil with
  | some t =>
    if now < t then
      .denied .throttled (Int.ceil (((t - now : Int) : ℚ) / 1000))
    else canProceedSpecTail q now
  | none => canProceedSpecTail q now

theorem rateCheckOf_eq_spec (q : APIQuota) (now : Int) (h : 0 ≤ now) :
    rateCheckOf q now = canProceedSpec q now := by
  have hback :
      ((3 / 2 : ℚ) ^ ((q.consecutiveErrors - 3).toNat) * 5000 / 1000) =
        ((3 / 2 : ℚ) ^ ((q.consecutiveErrors - 3).toNat) * 5) := by
    ring
  cases ht : q.throttledUntil with
  | none =>
    simp only [rateCheckOf, canProceedSpec, canProceedSpecTail,
      throttleActive, ht, maxRequestsPerMinute, maxRequestsPerHour,
      minDelayBetweenRequests, maxConsecutiveErrors, Bool.false_eq_true,
      if_false, hback]
  | some t =>
    by_cases hlt : now < t
    · have ht0 : t ≠ 0 := by omega
      simp only [rateCheckOf, canProceedSpec, throttleActive, ht,
        Option.getD_some, ceilDivSec]
      rw [if_pos (by simp [ht0, hlt]), if_pos hlt]
    · simp only [rateCheckOf, canProceedSpec, canProceedSpecTail,
        throttleActive, ht, maxRequestsPerMinute, maxRequestsPerHour,
        minDelayBetweenRequests, maxConsecutiveErrors, hback]
      rw [if_neg (by simp [hlt]), if_neg hlt]

/- ### Claim theorems -/

/-- C1: for every key and time `now`, `canMakeRequest` evaluates its denial
checks on the window-normalized quota in exactly the specified order —
throttle (with `ceil((throttledUntil - now)/1000)`), minute limit (30),
hour limit (200), minimum spacing (500ms), consecutive-error backoff (with
`ceil(1.5^(consecutiveErrors - 3) * 5)`) — and allows the call when no
check matches. -/
theorem claim_C1 (quotas : String → Option APIQuota) (key : String)
    (now : Int) (h : 0 ≤ now) :
    (canMakeRequest quotas key now).2 =
      canProceedSpec (normalizeWindows (getOrCreateQuota quotas key now) now)
        now :=
  rateCheckOf_eq_spec _ now h

theorem claim_C1_witness :
    (0 : Int) ≤ 1000000 ∧
      (canMakeRequest (fun _ => none) "k" 1000000).2 =
        canProceedSpec
          (normalizeWindows (getOrCreateQuota (fun _ => none) "k" 1000000)
            1000000) 1000000 :=
  ⟨by decide, claim_C1 (fun _ => none) "k" 1000000 (by decide)⟩

/-- C2: the expiration stored by `AdaptiveCache.set` is `now + ttl` where
`ttl` comes from the claim's three-tier priority applied to the profile the
`set` has just learned; and `getAdaptiveTTL` equals that cascade on every
profile, existing or not. -/
theorem claim_C2 (sqrtFn : ℚ → ℚ) (hashFn : JsonVal → String)
    (cs : CacheState) (key : String) (data : JsonVal) (now : Int) :
    (cacheSet sqrtFn hashFn cs key data now).expirations key =
      some (now + selectTtlSpec
        (some (learnFromData sqrtFn hashFn (cs.profiles key) key data now))) ∧
    (∀ p?, getAdaptiveTTL p? = selectTtlSpec p?) := by
  have hsel : ∀ p?, getAdaptiveTTL p? = selectTtlSpec p? := by
    intro p?
    cases p? <;>
      simp [getAdaptiveTTL, selectTtlSpec, MIN_TTL, DEFAULT_TTL]
  refine ⟨?_, hsel⟩
  simp only [cacheSet, mapUpdate_self, hsel]

/-- C3: on a history of at least five samples whose consecutive content
hashes all agree (no transitions, so `changeIntervals` is empty), the
analysis marks the endpoint STATIC: `updateFrequency = null`,
`isRealtime = false`, `recommendedTTL = MAX_TTL` (24h),
`confidence = 90`. -/
theorem claim_C3 (sqrtFn : ℚ → ℚ) (p : APIProfile)
    (h5 : 5 ≤ p.samples.length)
    (hstatic : List.Chain' (fun a b => a.hash = b.hash) p.samples) :
    analyzeUpdatePattern sqrtFn p =
      { p with
        updateFrequency := none
        isRealtime := false
        recommendedTTL := MAX_TTL
        confidence := 90 } := by
  simp only [analyzeUpdatePattern]
  rw [changeIntervals_eq_nil_of_chain _ hstatic]

/-- A concrete five-sample static history for the C3 witness. -/
def staticProfileW : APIProfile :=
  { url := "u", updateFrequency := some 7, lastCheck := 0, confidence := 42,
    isRealtime := true, recommendedTTL := 1234,
    samples :=
      [⟨"h", 0, .num 1⟩, ⟨"h", 10, .num 1⟩, ⟨"h", 20, .num 1⟩,
       ⟨"h", 30, .num 1⟩, ⟨"h", 40, .num 1⟩] }

theorem claim_C3_witness :
    analyzeUpdatePattern (fun _ => 0) staticProfileW =
      { staticProfileW with
        updateFrequency := none
        isRealtime := false
        recommendedTTL := MAX_TTL
        confidence := 90 } :=
  claim_C3 (fun _ => 0) staticProfileW (by decide)
    (by simp [staticProfileW, List.chain'_cons])

/-- C6: `recordError` stores, for the key, exactly the prior quota with
`consecutiveErrors` incremented and `lastRequestTime` stamped to `now`;
every other field — `requestCount`, the per-window counters, the window
starts, `throttledUntil`, `detectedLimits`, `customRetryAfter` — is carried
over unchanged. -/
theorem claim_C6 (quotas : String → Option APIQuota) (key : String)
    (now : Int) :
    recordError quotas key now key =
      some
        { url := (getOrCreateQuota quotas key now).url
          requestCount := (getOrCreateQuota quotas key now).requestCount
          requestsThisMinute :=
            (getOrCreateQuota quotas key now).requestsThisMinute
          requestsThisHour :=
            (getOrCreateQuota quotas key now).requestsThisHour
          minuteStartTime := (getOrCreateQuota quotas key now).minuteStartTime
          hourStartTime := (getOrCreateQuota quotas key now).hourStartTime
          lastRequestTime := now
          throttledUntil := (getOrCreateQuota quotas key now).throttledUntil
          detectedLimits := (getOrCreateQuota quotas key now).detectedLimits
          customRetryAfter :=
            (getOrCreateQuota quotas key now).customRetryAfter
          consecutiveErrors :=
            (getOrCreateQuota quotas key now).consecutiveErrors + 1 } := by
  simp only [recordError, mapUpdate_self]

/-- C8: each observation appends the new snapshot at the end, evicts from
the front exactly when the bound of 20 would be exceeded (so the history
never exceeds 20 samples), and when fewer than five samples are present no
analysis runs: the estimate fields keep their prior values. -/
theorem claim_C8 (sqrtFn : ℚ → ℚ) (hashFn : JsonVal → String)
    (p? : Option APIProfile) (key : String) (data : JsonVal) (now : Int) :
    (learnFromData sqrtFn hashFn p? key data now).samples =
      ((p?.getD (defaultProfile key now)).samples ++
          [({ hash := hashFn data, timestamp := now, value := data } : DataSnapshot)]).drop
        ((p?.getD (defaultProfile key now)).samples.length + 1 - 20) ∧
    (learnFromData sqrtFn hashFn p? key data now).samples.length ≤ 20 ∧
    (learnFromData sqrtFn hashFn p? key data now).samples.getLast? =
      some ({ hash := hashFn data, timestamp := now, value := data } : DataSnapshot) ∧
    ((p?.getD (defaultProfile key now)).samples.length + 1 < 5 →
      (learnFromData sqrtFn hashFn p? key data now).updateFrequency =
          (p?.getD (defaultProfile key now)).updateFrequency ∧
        (learnFromData sqrtFn hashFn p? key data now).confidence =
          (p?.getD (defaultProfile key now)).confidence ∧
        (learnFromData sqrtFn hashFn p? key data now).isRealtime =
          (p?.getD (defaultProfile key now)).isRealtime ∧
        (learnFromData sqrtFn hashFn p? key data now).recommendedTTL =
          (p?.getD (defaultProfile key now)).recommendedTTL) := by
  have hsamp := learnFromData_samples sqrtFn hashFn p? key data now
  have hlen1 :
      ((p?.getD (defaultProfile key now)).samples ++
        [({ hash := hashFn data, timestamp := now, value := data } : DataSnapshot)]).length =
        (p?.getD (defaultProfile key now)).samples.length + 1 := by
    simp
  have hdrop : (learnFromData sqrtFn hashFn p? key data now).samples =
      ((p?.getD (defaultProfile key now)).samples ++
          [({ hash := hashFn data, timestamp := now, value := data } : DataSnapshot)]).drop
        ((p?.getD (defaultProfile key now)).samples.length + 1 - 20) := by
    rw [hsamp, trimmedSamples_eq, hlen1]
    rfl
  refine ⟨hdrop, ?_, ?_, ?_⟩
  · rw [hdrop]
    simp only [List.length_drop, hlen1]
    omega
  · rw [hdrop]
    have hk : (p?.getD (defaultProfile key now)).samples.length + 1 - 20 ≤
        (p?.getD (defaultProfile key now)).samples.length := by omega
    rw [List.drop_append_of_le_length hk]
    simp
  · intro hlt
    refine learnFromData_fields_of_small sqrtFn hashFn p? key data now ?_
    rw [trimmedSamples_eq, hlen1]
    simp only [List.length_drop, hlen1]
    unfold MIN_SAMPLES MAX_SAMPLES
    omega

/- ### C9: getEvenIfExpired -/

/-- An empty cache for the C9 counterexample. -/
def emptyCacheState : CacheState :=
  { cache := fun _ => none, expirations := fun _ => none,
    profiles := fun _ => none }

/-- C9 counterexample: `set` stores the falsy value `0` for `"u"`, yet
`getEvenIfExpired` reports the key absent — `return cached || null`
confuses a falsy stored value with a missing key, so "absent only if the
key was never set" fails. -/
theorem claim_C9_counterexample :
    (cacheSet (fun _ => 0) (fun _ => "h") emptyCacheState "u"
        (.num 0) 0).cache "u" = some (.num 0) ∧
      getEvenIfExpired
        (cacheSet (fun _ => 0) (fun _ => "h") emptyCacheState "u"
          (.num 0) 0) "u" = none :=
  ⟨rfl, rfl⟩

/-- C9 (amended): `getEvenIfExpired` never consults the expiration map (so
expiry is irrelevant) and returns the stored value whenever that value is
truthy; it reports absent only if the key was never set or the stored
value is falsy (`null`, `false`, `0`, `""`). -/
theorem claim_C9_amended (cs : CacheState) (key : String) :
    (∀ exps, getEvenIfExpired { cs with expirations := exps } key =
      getEvenIfExpired cs key) ∧
    (∀ v, cs.cache key = some v → truthy v = true →
      getEvenIfExpired cs key = some v) ∧
    (getEvenIfExpired cs key = none →
      cs.cache key = none ∨
        ∃ v, cs.cache key = some v ∧ truthy v = false) := by
  refine ⟨fun exps => rfl, ?_, ?_⟩
  · intro v hv htr
    simp [getEvenIfExpired, hv, htr]
  · intro hnone
    cases hv : cs.cache key with
    | none => exact Or.inl rfl
    | some v =>
      refine Or.inr ⟨v, rfl, ?_⟩
      by_contra htr
      simp only [Bool.not_eq_false] at htr
      simp [getEvenIfExpired, hv, htr] at hnone

/-- A cache holding a truthy value for the C9 witness. -/
def oneEntryCacheState : CacheState :=
  { cache := fun k => if k = "u" then some (.num 1) else none,
    expirations := fun _ => none, profiles := fun _ => none }

theorem claim_C9_amended_witness :
    getEvenIfExpired oneEntryCacheState "u" = some (.num 1) :=
  (claim_C9_amended oneEntryCacheState "u").2.1 (.num 1) rfl rfl

/- ### C7: the double-data envelope -/

/-- The payload `{data: {data: {x: 1}}}` of the C7 claim. -/
def nestedDataPayload : JsonVal :=
  .obj [("data", .obj [("data", .obj [("x", .num 1)])])]

/-- C7 counterexample: `normalizeData {data:{data:{x:1}}}` is NOT
`{data:{x:1}}` — the graphql-shape adapter (`data` present, `errors`
absent) matches before any unwrapping adapter and re-wraps
`deepNormalize(input.data)`, returning the payload unchanged. -/
theorem claim_C7_counterexample :
    ¬ (normalizeData nestedDataPayload =
      .obj [("data", .obj [("x", .num 1)])]) := by
  have h : normalizeData nestedDataPayload = nestedDataPayload := rfl
  rw [h]
  simp [nestedDataPayload]

/-- C7 (amended): `normalizeData {data:{data:{x:1}}}` returns the payload
unchanged: the graphql adapter detects it first and its normalization is
the identity here; and even the universal fallback's one-level unwrap maps
this payload to itself (the unwrap only prevents double-wrapping — it
rewraps `normalized.data`, which reproduces the input), so no adapter
yields `{data:{x:1}}`. -/
theorem claim_C7_amended :
    normalizeData nestedDataPayload = nestedDataPayload ∧
      graphqlDetect nestedDataPayload = true ∧
      universalNormalize nestedDataPayload = nestedDataPayload :=
  ⟨rfl, rfl, rfl⟩

/- ### C5: the cache fast path -/

/-- C5 (amended): on a fresh cache hit, `fetchJson` returns the cached
value tagged `cached` without any transport call or recorded effect, and
takes this path whatever the rate-limit verdict was (the denial branch is
never reached).  The cache, expiration and profile maps are untouched; the
key's quota is only rewritten by the lazy window normalization inside the
initial `canMakeRequest` — `requestCount` is unchanged and the per-window
counters are never incremented (each is either unchanged or reset to 0 by
a lapsed window). -/
theorem claim_C5_amended (sqrtFn : ℚ → ℚ) (hashFn : JsonVal → String)
    (external : Bool) (key : String) (now : Int) (tr : TransportOutcome)
    (st : GateState) (v : JsonVal)
    (hhit : cacheGet st.cacheSt key now = some v) :
    (fetchJson sqrtFn hashFn true external key now tr st).2.2.ok = true ∧
    (fetchJson sqrtFn hashFn true external key now tr st).2.2.cached = true ∧
    (fetchJson sqrtFn hashFn true external key now tr st).2.2.data = some v ∧
    (fetchJson sqrtFn hashFn true external key now tr st).2.1 = [] ∧
    (fetchJson sqrtFn hashFn true external key now tr st).1.cacheSt =
      st.cacheSt ∧
    (fetchJson sqrtFn hashFn true external key now tr st).1.quotas key =
      some (normalizeWindows (getOrCreateQuota st.quotas key now) now) ∧
    (normalizeWindows (getOrCreateQuota st.quotas key now) now).requestCount =
      (getOrCreateQuota st.quotas key now).requestCount ∧
    ((normalizeWindows (getOrCreateQuota st.quotas key now)
          now).requestsThisMinute =
        (getOrCreateQuota st.quotas key now).requestsThisMinute ∨
      (normalizeWindows (getOrCreateQuota st.quotas key now)
          now).requestsThisMinute = 0) ∧
    ((normalizeWindows (getOrCreateQuota st.quotas key now)
          now).requestsThisHour =
        (getOrCreateQuota st.quotas key now).requestsThisHour ∨
      (normalizeWindows (getOrCreateQuota st.quotas key now)
          now).requestsThisHour = 0) := by
  have hfetch : fetchJson sqrtFn hashFn true external key now tr st =
      ({ st with quotas := (canMakeRequest st.quotas key now).1 }, [],
        ⟨true, some v, true, none⟩) := by
    simp only [fetchJson, Bool.not_true, Bool.false_eq_true, if_false,
      hhit]
  rw [hfetch]
  refine ⟨rfl, rfl, rfl, rfl, rfl, ?_, normalizeWindows_requestCount _ _,
    normalizeWindows_minute _ _, normalizeWindows_hour _ _⟩
  simp only [canMakeRequest, mapUpdate_self]

/-- The quota of the C5 counterexample: 5 requests in a minute window that
started at time 0. -/
def staleWindowQuota : APIQuota :=
  { url := "u", requestCount := 7, requestsThisMinute := 5,
    requestsThisHour := 6, minuteStartTime := 0, hourStartTime := 0,
    lastRequestTime := 0, throttledUntil := none, detectedLimits := none,
    customRetryAfter := none, consecutiveErrors := 0 }

/-- The state of the C5 counterexample: a fresh cache entry for `"u"`
(expires at 100000) alongside `staleWindowQuota`. -/
def staleWindowState : GateState :=
  { quotas := fun k => if k = "u" then some staleWindowQuota else none,
    cacheSt :=
      { cache := fun k => if k = "u" then some (.num 1) else none,
        expirations := fun k => if k = "u" then some 100000 else none,
        profiles := fun _ => none } }

/-- C5 counterexample: polling at `now = 70000` hits the fresh cache entry
and serves it, yet `requestsThisMinute` for the key changes from 5 to 0 —
the minute window lapsed and `canMakeRequest` (which runs before the cache
check) zeroes it — so "totalRequests, requestsThisMinute, requestsThisHour
all unchanged" fails. -/
theorem claim_C5_counterexample :
    (fetchJson (fun _ => 0) (fun _ => "h") true false "u" 70000 .throws
        staleWindowState).2.2.cached = true ∧
      (staleWindowState.quotas "u").map (fun q => q.requestsThisMinute) =
        some 5 ∧
      ((fetchJson (fun _ => 0) (fun _ => "h") true false "u" 70000 .throws
          staleWindowState).1.quotas "u").map
        (fun q => q.requestsThisMinute) = some 0 :=
  ⟨rfl, rfl, rfl⟩

theorem claim_C5_amended_witness :
    (fetchJson (fun _ => 0) (fun _ => "h") true false "u" 70000 .throws
      staleWindowState).2.2.cached = true :=
  (claim_C5_amended (fun _ => 0) (fun _ => "h") false "u" 70000 .throws
    staleWindowState (.num 1) rfl).2.1

/- ### C4: effects after the transport call -/

/-- An entirely empty gate state. -/
def emptyGateState : GateState :=
  { quotas := fun _ => none, cacheSt := emptyCacheState }

/-- C4 counterexample: a poll whose transport returns HTTP 404 — not a 2xx
status — still produces the call sequence transport → `recordSuccess` →
`learnFromHeaders` → `recordError`, so `recordSuccess` IS invoked for a
non-2xx response (the source calls it before checking `response.ok`). -/
theorem claim_C4_counterexample :
    (fetchJson (fun _ => 0) (fun _ => "h") true false "u" 1000
        (.responds 404 ⟨none, none, none, none⟩ .jsonBad)
        emptyGateState).2.1 =
      [.transportCall, .recordSuccessEv, .learnFromHeadersEv,
        .recordErrorEv] ∧
      ¬ (200 ≤ 404 ∧ 404 < 300) :=
  ⟨rfl, by decide⟩

/-- C4 (amended): whenever the transport completes with a response — of
any HTTP status — the gatekeeper invokes `recordSuccess` and
`learnFromHeaders` immediately after the call; the body is stored in the
cache via `AdaptiveCache.set` before being returned exactly when the
response is 2xx and the body is JSON (stored proxy-unwrapped) or plain
text (stored raw) — a non-2xx response, and a 2xx body that fails JSON
parsing or is HTML, stores nothing.  (`ResponseNormalizer.normalize` is
applied by the callers after `fetchJson` returns, not before the
`set`.) -/
theorem claim_C4_amended (sqrtFn : ℚ → ℚ) (hashFn : JsonVal → String)
    (external : Bool) (key : String) (now : Int) (status : Nat)
    (hdrs : HeadersInfo) (body : BodyOutcome) (st : GateState)
    (hmiss : cacheGet st.cacheSt key now = none)
    (hallowed : (canMakeRequest st.quotas key now).2 = .allowed) :
    (fetchJson sqrtFn hashFn true external key now
        (.responds status hdrs body) st).2.1.take 3 =
      [.transportCall, .recordSuccessEv, .learnFromHeadersEv] ∧
    (∀ v, 200 ≤ status → status < 300 → body = .jsonOk v →
      (fetchJson sqrtFn hashFn true external key now
          (.responds status hdrs body) st).2.1 =
        [.transportCall, .recordSuccessEv, .learnFromHeadersEv,
          .cacheSetEv] ∧
      (fetchJson sqrtFn hashFn true external key now
          (.responds status hdrs body) st).2.2.ok = true ∧
      (fetchJson sqrtFn hashFn true external key now
          (.responds status hdrs body) st).2.2.data =
        some (unwrapProxy external v) ∧
      (fetchJson sqrtFn hashFn true external key now
          (.responds status hdrs body) st).1.cacheSt.cache key =
        some (unwrapProxy external v)) ∧
    (∀ t, 200 ≤ status → status < 300 → body = .textBody t →
      (fetchJson sqrtFn hashFn true external key now
          (.responds status hdrs body) st).2.1 =
        [.transportCall, .recordSuccessEv, .learnFromHeadersEv,
          .cacheSetEv] ∧
      (fetchJson sqrtFn hashFn true external key now
          (.responds status hdrs body) st).2.2.ok = true ∧
      (fetchJson sqrtFn hashFn true external key now
          (.responds status hdrs body) st).2.2.data = some t ∧
      (fetchJson sqrtFn hashFn true external key now
          (.responds status hdrs body) st).1.cacheSt.cache key =
        some t) ∧
    (Event.cacheSetEv ∈ (fetchJson sqrtFn hashFn true external key now
        (.responds status hdrs body) st).2.1 →
      200 ≤ status ∧ status < 300 ∧
        ((∃ v, body = .jsonOk v) ∨ (∃ t, body = .textBody t))) := by
  refine ⟨?_, ?_, ?_, ?_⟩
  · simp only [fetchJson, Bool.not_true, Bool.false_eq_true, if_false,
      hmiss, hallowed]
    by_cases h2 : (200 ≤ status && status < 300) = true
    · rw [if_neg (by simp [h2])]
      cases body <;> simp
    · rw [if_pos (by simp_all; omega)]
      by_cases h429 : status = 429
      · rw [if_pos h429]
        cases hfb : getEvenIfExpired st.cacheSt key <;> simp
      · rw [if_neg h429]
        simp
  · intro v hlo hhi hbody
    subst hbody
    have h2 : (200 ≤ status && status < 300) = true := by
      simp [hlo, hhi]
    simp only [fetchJson, Bool.not_true, Bool.false_eq_true, if_false,
      hmiss, hallowed, h2, Bool.not_true, if_false]
    simp [cacheSet, mapUpdate_self]
  · intro t hlo hhi hbody
    subst hbody
    have h2 : (200 ≤ status && status < 300) = true := by
      simp [hlo, hhi]
    simp only [fetchJson, Bool.not_true, Bool.false_eq_true, if_false,
      hmiss, hallowed, h2, Bool.not_true, if_false]
    simp [cacheSet, mapUpdate_self]
  · intro hmem
    simp only [fetchJson, Bool.not_true, Bool.false_eq_true, if_false,
      hmiss, hallowed] at hmem
    by_cases h2 : (200 ≤ status && status < 300) = true
    · rw [if_neg (by simp [h2])] at hmem
      simp only [Bool.and_eq_true, decide_eq_true_eq] at h2
      cases body with
      | jsonOk v => exact ⟨h2.1, h2.2, Or.inl ⟨v, rfl⟩⟩
      | jsonBad => simp at hmem
      | htmlBody => simp at hmem
      | textBody t => exact ⟨h2.1, h2.2, Or.inr ⟨t, rfl⟩⟩
    · rw [if_pos (by simp_all; omega)] at hmem
      by_cases h429 : status = 429
      · rw [if_pos h429] at hmem
        split at hmem <;> simp at hmem
      · rw [if_neg h429] at hmem
        simp at hmem

theorem claim_C4_amended_witness :
    (fetchJson (fun _ => 0) (fun _ => "h") true false "u" 1000
        (.responds 200 ⟨none, none, none, none⟩ (.jsonOk (.num 1)))
        emptyGateState).2.1.take 3 =
      [.transportCall, .recordSuccessEv, .learnFromHeadersEv] :=
  (claim_C4_amended (fun _ => 0) (fun _ => "h") false "u" 1000 200
    ⟨none, none, none, none⟩ (.jsonOk (.num 1)) emptyGateState rfl rfl).1

/- ### C10: idempotence of the generic normalization pass -/

theorem not_ws_of_word {c : Char} (h : isWordChar c = true) :
    isWsChar c = false := by
  simp only [isWordChar, isDigitL, isUpperL, Bool.or_eq_true,
    Bool.and_eq_true, decide_eq_true_eq] at h
  simp only [isWsChar, Bool.or_eq_false_iff, decide_eq_false_iff_not]
  omega

theorem not_ws_of_upper {c : Char} (h : isUpperL c = true) :
    isWsChar c = false := by
  simp only [isUpperL, Bool.and_eq_true, decide_eq_true_eq] at h
  simp only [isWsChar, Bool.or_eq_false_iff, decide_eq_false_iff_not]
  omega

theorem not_ws_of_digit {c : Char} (h : isDigitL c = true) :
    isWsChar c = false := by
  simp only [isDigitL, Bool.and_eq_true, decide_eq_true_eq] at h
  simp only [isWsChar, Bool.or_eq_false_iff, decide_eq_false_iff_not]
  omega

theorem not_upper_of_digit {c : Char} (h : isDigitL c = true) :
    isUpperL c = false := by
  simp only [isDigitL, Bool.and_eq_true, decide_eq_true_eq] at h
  simp only [isUpperL, Bool.and_eq_false_iff, decide_eq_false_iff_not]
  omega

theorem dropWhile_head?_false (p : Char → Bool) (l : List Char) :
    ∀ c ∈ (l.dropWhile p).head?, p c = false := by
  intro c hc
  have h := List.head?_dropWhile_not p l
  cases hh : (l.dropWhile p).head? with
  | none => rw [hh] at hc; simp at hc
  | some d =>
    rw [hh] at h hc
    simp only [Option.mem_def, Option.some.injEq] at hc
    subst hc
    exact h

theorem dropWhile_eq_self_of_head (p : Char → Bool) (l : List Char)
    (h : ∀ c ∈ l.head?, p c = false) : l.dropWhile p = l := by
  cases l with
  | nil => rfl
  | cons a t =>
    have ha := h a (by simp)
    simp [List.dropWhile_cons, ha]

theorem dropWhile_dropWhile (p : Char → Bool) (l : List Char) :
    (l.dropWhile p).dropWhile p = l.dropWhile p :=
  dropWhile_eq_self_of_head p _ (dropWhile_head?_false p l)

theorem trimEnds_idem (p : Char → Bool) (l : List Char) :
    trimEnds p (trimEnds p l) = trimEnds p l := by
  unfold trimEnds
  have h1 : (((l.dropWhile p).reverse.dropWhile p).reverse).dropWhile p =
      ((l.dropWhile p).reverse.dropWhile p).reverse := by
    apply dropWhile_eq_self_of_head
    intro c hc
    rw [List.head?_reverse] at hc
    cases hCc : (l.dropWhile p).reverse.dropWhile p with
    | nil => rw [hCc] at hc; simp at hc
    | cons x xs =>
      obtain ⟨pre, hpre⟩ := List.dropWhile_suffix (l := (l.dropWhile p).reverse) p
      have hsome : (((l.dropWhile p).reverse.dropWhile p).getLast?).isSome := by
        rw [hCc]
        simp [List.getLast?_isSome]
      have hlast : ((l.dropWhile p).reverse.dropWhile p).getLast? =
          ((l.dropWhile p).reverse).getLast? := by
        conv_rhs => rw [← hpre]
        rw [List.getLast?_append]
        exact (Option.or_of_isSome hsome).symm
      rw [hlast, List.getLast?_reverse] at hc
      exact dropWhile_head?_false p l c hc
  rw [h1, List.reverse_reverse, dropWhile_dropWhile]

theorem trimEnds_eq_self (p : Char → Bool) (l : List Char)
    (h : ∀ c ∈ l, p c = false) : trimEnds p l = l := by
  unfold trimEnds
  rw [dropWhile_eq_self_of_head p l
    (fun c hc => h c (List.mem_of_mem_head? hc))]
  rw [dropWhile_eq_self_of_head p l.reverse
    (fun c hc => h c (List.mem_reverse.mp (List.mem_of_mem_head? hc)))]
  rw [List.reverse_reverse]

theorem mem_trimEnds {p : Char → Bool} {l : List Char} {c : Char}
    (h : c ∈ trimEnds p l) : c ∈ l := by
  unfold trimEnds at h
  rw [List.mem_reverse] at h
  have h2 : c ∈ (l.dropWhile p).reverse :=
    (List.dropWhile_suffix p).sublist.mem h
  rw [List.mem_reverse] at h2
  exact (List.dropWhile_suffix p).sublist.mem h2

theorem collapseAux_all_word :
    ∀ (b : Bool) (l : List Char) (c : Char), c ∈ collapseAux b l →
      isWordChar c = true := by
  intro b l
  induction l generalizing b with
  | nil => intro c hc; simp [collapseAux] at hc
  | cons a t ih =>
    intro c hc
    simp only [collapseAux] at hc
    by_cases hw : isWordChar a = true
    · rw [if_pos hw] at hc
      rcases List.mem_cons.mp hc with h | h
      · subst h; exact hw
      · exact ih false c h
    · rw [if_neg hw] at hc
      cases b with
      | true =>
        rw [if_pos rfl] at hc
        exact ih true c hc
      | false =>
        rw [if_neg (by simp)] at hc
        rcases List.mem_cons.mp hc with h | h
        · subst h; decide
        · exact ih true c h

theorem collapseAux_preserve (P : Char → Bool) (hP : P '_' = true) :
    ∀ (b : Bool) (l : List Char), (∀ c ∈ l, P c = true) →
      ∀ c ∈ collapseAux b l, P c = true := by
  intro b l
  induction l generalizing b with
  | nil => intro _ c hc; simp [collapseAux] at hc
  | cons a t ih =>
    intro hall c hc
    have hta : ∀ c ∈ t, P c = true := fun d hd => hall d (List.mem_cons_of_mem a hd)
    simp only [collapseAux] at hc
    by_cases hw : isWordChar a = true
    · rw [if_pos hw] at hc
      rcases List.mem_cons.mp hc with h | h
      · subst h; exact hall _ (List.mem_cons_self _ _)
      · exact ih false hta c h
    · rw [if_neg hw] at hc
      cases b with
      | true =>
        rw [if_pos rfl] at hc
        exact ih true hta c hc
      | false =>
        rw [if_neg (by simp)] at hc
        rcases List.mem_cons.mp hc with h | h
        · subst h; exact hP
        · exact ih true hta c h

theorem collapseAux_eq_self :
    ∀ (b : Bool) (l : List Char), (∀ c ∈ l, isWordChar c = true) →
      collapseAux b l = l := by
  intro b l
  induction l generalizing b with
  | nil => intro _; rfl
  | cons a t ih =>
    intro hall
    have hw : isWordChar a = true := hall a (List.mem_cons_self a t)
    simp only [collapseAux, if_pos hw]
    rw [ih false (fun d hd => hall d (List.mem_cons_of_mem a hd))]

theorem toNat_ofNat_valid {m : Nat} (h : m < 55296) :
    (Char.ofNat m).toNat = m := by
  rw [Char.ofNat, dif_pos (Or.inl h)]
  simp [Char.ofNatAux, Char.toNat, UInt32.toNat, BitVec.toNat_ofNatLt]

theorem isUpperL_toLower (c : Char) : isUpperL (Char.toLower c) = false := by
  unfold Char.toLower
  by_cases h : c.toNat ≥ 65 ∧ c.toNat ≤ 90
  · rw [if_pos h]
    have hv : (Char.ofNat (c.toNat + 32)).toNat = c.toNat + 32 :=
      toNat_ofNat_valid (by omega)
    simp only [isUpperL, hv, Bool.and_eq_false_iff,
      decide_eq_false_iff_not]
    omega
  · rw [if_neg h]
    simp only [isUpperL, Bool.and_eq_false_iff, decide_eq_false_iff_not]
    omega

theorem toLower_eq_self {c : Char} (h : isUpperL c = false) :
    Char.toLower c = c := by
  unfold Char.toLower
  rw [if_neg]
  simp only [isUpperL, Bool.and_eq_false_iff, decide_eq_false_iff_not] at h
  omega

theorem isDateL_chars (r : List Char) (h : isDateL r = true) :
    ∀ c ∈ r, isDigitL c = true ∨ c = '-' := by
  unfold isDateL at h
  split at h
  · rename_i y1 y2 y3 y4 h1 m1 m2 h2 d1 d2
    simp only [Bool.and_eq_true, decide_eq_true_eq] at h
    intro c hc
    simp only [List.mem_cons, List.not_mem_nil, or_false] at hc
    rcases hc with rfl | rfl | rfl | rfl | rfl | rfl | rfl | rfl | rfl | rfl <;>
      tauto
  · exact absurd h (by simp)

theorem isDateL_head_digit (r : List Char) (h : isDateL r = true) :
    ∃ y t, r = y :: t ∧ isDigitL y = true := by
  unfold isDateL at h
  split at h
  · rename_i y1 y2 y3 y4 h1 m1 m2 h2 d1 d2
    simp only [Bool.and_eq_true, decide_eq_true_eq] at h
    refine ⟨y1, _, rfl, ?_⟩
    tauto
  · exact absurd h (by simp)

theorem dash_mem_of_isDateL (r : List Char) (h : isDateL r = true) :
    ('-') ∈ r := by
  unfold isDateL at h
  split at h
  · rename_i y1 y2 y3 y4 h1 m1 m2 h2 d1 d2
    simp only [Bool.and_eq_true, decide_eq_true_eq] at h
    have hh : h1 = '-' := by tauto
    subst hh
    simp
  · exact absurd h (by simp)

theorem allCaps_false_of_head (a : Char) (t : List Char)
    (ha : isUpperL a = false) : allCapsL (a :: t) = false := by
  simp [allCapsL, ha]

theorem allCaps_false_of_not_upper (r : List Char)
    (h : ∀ c ∈ r, isUpperL c = false) : allCapsL r = false := by
  cases r with
  | nil => rfl
  | cons a t => exact allCaps_false_of_head a t (h a (List.mem_cons_self a t))

theorem stripLeadingNum_eq_self (r : List Char) (h : ('.') ∉ r) :
    stripLeadingNum r = r := by
  unfold stripLeadingNum
  by_cases hds : (r.takeWhile isDigitL).isEmpty
  · rw [if_pos hds]
  · rw [if_neg hds]
    split
    · rename_i rest heq
      exfalso
      apply h
      exact List.mem_of_mem_drop (heq ▸ List.mem_cons_self '.' rest)
    · rfl

theorem lowerL_eq_self (r : List Char)
    (h : ∀ c ∈ r, isUpperL c = false) : lowerL r = r := by
  unfold lowerL
  conv_rhs => rw [← List.map_id r]
  exact List.map_congr_left (fun c hc => toLower_eq_self (h c hc))

theorem isDateL_false_of_word (r : List Char)
    (h : ∀ c ∈ r, isWordChar c = true) : isDateL r = false := by
  by_contra hd
  simp only [Bool.not_eq_false] at hd
  have hmem := dash_mem_of_isDateL r hd
  have := h '-' hmem
  exact absurd this (by decide)

theorem genOut_word (x : List Char) (c : Char)
    (hc : c ∈ trimUnderscoresL (collapseNonWord x)) : isWordChar c = true :=
  collapseAux_all_word false x c (mem_trimEnds hc)

theorem genOut_not_upper (x : List Char) (c : Char)
    (hc : c ∈ trimUnderscoresL (collapseNonWord (lowerL x))) :
    isUpperL c = false := by
  have h1 : c ∈ collapseAux false (lowerL x) := mem_trimEnds hc
  have h2 := collapseAux_preserve (fun c => !isUpperL c) (by decide) false
    (lowerL x)
    (fun d hd => by
      rcases List.mem_map.mp hd with ⟨e, _, rfl⟩
      simp [isUpperL_toLower])
    c h1
  simpa using h2

theorem sanitizeKeyL_fixed (r : List Char)
    (hword : ∀ c ∈ r, isWordChar c = true)
    (hnup : ∀ c ∈ r, isUpperL c = false)
    (htrim : trimUnderscoresL r = r) : sanitizeKeyL r = r := by
  have e1 : jsTrimL r = r :=
    trimEnds_eq_self _ _ (fun c hc => not_ws_of_word (hword c hc))
  have e2 : allCapsL r = false := allCaps_false_of_not_upper r hnup
  have e3 : isDateL r = false := isDateL_false_of_word r hword
  have e4 : stripLeadingNum r = r :=
    stripLeadingNum_eq_self r
      (fun hdot => absurd (hword '.' hdot) (by decide))
  have e5 : lowerL r = r := lowerL_eq_self r hnup
  have e6 : collapseNonWord r = r := collapseAux_eq_self false r hword
  simp only [sanitizeKeyL, e1, e2, e3, e4, e5, e6, Bool.false_eq_true,
    if_false, htrim]

theorem sanitizeKeyL_idem (l : List Char) :
    sanitizeKeyL (sanitizeKeyL l) = sanitizeKeyL l := by
  by_cases hcaps : allCapsL (jsTrimL l) = true
  · have hfirst : sanitizeKeyL l = jsTrimL l := by
      simp only [sanitizeKeyL, hcaps, if_true]
    rw [hfirst]
    have hall : ∀ c ∈ jsTrimL l, isUpperL c = true := by
      simp only [allCapsL, Bool.and_eq_true, decide_eq_true_eq,
        List.all_eq_true] at hcaps
      exact hcaps.2
    have e1 : jsTrimL (jsTrimL l) = jsTrimL l :=
      trimEnds_eq_self _ _ (fun c hc => not_ws_of_upper (hall c hc))
    simp only [sanitizeKeyL, e1, hcaps, if_true]
  · by_cases hdate : isDateL (jsTrimL l) = true
    · have hfirst : sanitizeKeyL l = jsTrimL l := by
        simp only [sanitizeKeyL, hcaps, hdate, if_true, if_false,
          Bool.false_eq_true]
      rw [hfirst]
      have hchars := isDateL_chars _ hdate
      have e1 : jsTrimL (jsTrimL l) = jsTrimL l := by
        refine trimEnds_eq_self _ _ (fun c hc => ?_)
        rcases hchars c hc with hd | hd
        · exact not_ws_of_digit hd
        · subst hd; decide
      have e2 : allCapsL (jsTrimL l) = false := by
        obtain ⟨y, t, heq, hy⟩ := isDateL_head_digit _ hdate
        rw [heq]
        exact allCaps_false_of_head y t (not_upper_of_digit hy)
      simp only [sanitizeKeyL, e1, e2, hcaps, hdate, if_true, if_false,
        Bool.false_eq_true]
    · have hfirst : sanitizeKeyL l =
          trimUnderscoresL (collapseNonWord (lowerL
            (stripLeadingNum (jsTrimL l)))) := by
        simp only [sanitizeKeyL, hcaps, hdate, Bool.false_eq_true, if_false]
      rw [hfirst]
      refine sanitizeKeyL_fixed _ ?_ ?_ ?_
      · intro c hc
        exact genOut_word _ c hc
      · intro c hc
        exact genOut_not_upper _ c hc
      · exact trimEnds_idem _ _

theorem sanitizeKey_idem (s : String) :
    sanitizeKey (sanitizeKey s) = sanitizeKey s := by
  unfold sanitizeKey
  exact congrArg String.mk (sanitizeKeyL_idem s.data)

theorem coerceValue_idem (v : JsonVal) :
    coerceValue (coerceValue v) = coerceValue v := by
  cases v with
  | str s =>
    by_cases h : isNumericString (jsTrimL s.data) = true
    · have h1 : coerceValue (.str s) = .num (parseNumber (jsTrimL s.data)) := by
        simp only [coerceValue, h, if_true]
      rw [h1]
      rfl
    · have h1 : coerceValue (.str s) = .str s := by
        simp only [coerceValue]
        rw [if_neg h]
      rw [h1, h1]
  | null => rfl
  | bool b => rfl
  | num q => rfl
  | arr l => rfl
  | obj l => rfl

theorem mem_objInsert {acc : List (String × JsonVal)} {k : String}
    {v : JsonVal} {x : String × JsonVal} (h : x ∈ objInsert acc k v) :
    x ∈ acc ∨ x = (k, v) := by
  unfold objInsert at h
  split at h
  · rcases List.mem_map.mp h with ⟨y, hy, heq⟩
    by_cases hk : y.1 = k
    · rw [if_pos hk] at heq
      exact Or.inr heq.symm
    · rw [if_neg hk] at heq
      exact Or.inl (heq ▸ hy)
  · rcases List.mem_append.mp h with h1 | h1
    · exact Or.inl h1
    · simp only [List.mem_singleton] at h1
      exact Or.inr h1

theorem mem_foldl_objInsert :
    ∀ {l acc : List (String × JsonVal)} {x : String × JsonVal},
      x ∈ l.foldl (fun acc kv => objInsert acc kv.1 kv.2) acc →
      x ∈ acc ∨ x ∈ l := by
  intro l
  induction l with
  | nil => intro acc x h; exact Or.inl h
  | cons a t ih =>
    intro acc x h
    simp only [List.foldl_cons] at h
    rcases ih h with h1 | h1
    · rcases mem_objInsert h1 with h2 | h2
      · exact Or.inl h2
      · right
        rw [h2]
        exact List.mem_cons_self a t
    · exact Or.inr (List.mem_cons_of_mem a h1)

theorem keys_objInsert (acc : List (String × JsonVal)) (k : String)
    (v : JsonVal) :
    (objInsert acc k v).map Prod.fst =
      if acc.any (fun kv => kv.1 = k) then acc.map Prod.fst
      else acc.map Prod.fst ++ [k] := by
  unfold objInsert
  split
  · rw [List.map_map]
    refine List.map_congr_left (fun y _ => ?_)
    by_cases hk : y.1 = k
    · simp [hk]
    · simp [hk]
  · simp

theorem keysNodup_objInsert {acc : List (String × JsonVal)} {k : String}
    {v : JsonVal} (h : (acc.map Prod.fst).Nodup) :
    ((objInsert acc k v).map Prod.fst).Nodup := by
  rw [keys_objInsert]
  split
  · exact h
  · rename_i hany
    rw [List.nodup_append]
    refine ⟨h, List.nodup_singleton k, ?_⟩
    intro a ha hb
    simp only [List.mem_singleton] at hb
    subst hb
    rcases List.mem_map.mp ha with ⟨y, hy, hyk⟩
    exact hany (List.any_eq_true.mpr ⟨y, hy, by simp [hyk]⟩)

theorem keysNodup_foldl :
    ∀ {l acc : List (String × JsonVal)}, (acc.map Prod.fst).Nodup →
      ((l.foldl (fun acc kv => objInsert acc kv.1 kv.2) acc).map
        Prod.fst).Nodup := by
  intro l
  induction l with
  | nil => intro acc h; exact h
  | cons a t ih =>
    intro acc h
    simp only [List.foldl_cons]
    exact ih (keysNodup_objInsert h)

theorem objInsert_of_not_mem {acc : List (String × JsonVal)} {k : String}
    {v : JsonVal} (h : k ∉ acc.map Prod.fst) :
    objInsert acc k v = acc ++ [(k, v)] := by
  unfold objInsert
  rw [if_neg]
  intro hany
  rcases List.any_eq_true.mp hany with ⟨y, hy, hyk⟩
  simp only [decide_eq_true_eq] at hyk
  exact h (List.mem_map.mpr ⟨y, hy, hyk⟩)

theorem foldl_objInsert_of_nodup :
    ∀ (l acc : List (String × JsonVal)),
      (((acc ++ l).map Prod.fst)).Nodup →
      l.foldl (fun acc kv => objInsert acc kv.1 kv.2) acc = acc ++ l := by
  intro l
  induction l with
  | nil => intro acc _; simp
  | cons a t ih =>
    intro acc h
    simp only [List.foldl_cons]
    have hknotin : a.1 ∉ acc.map Prod.fst := by
      intro hin
      rw [List.map_append, List.nodup_append] at h
      exact h.2.2 hin (by simp)
    rw [objInsert_of_not_mem hknotin]
    have hre : acc ++ a :: t = (acc ++ [(a.1, a.2)]) ++ t := by
      rw [List.append_assoc]
      rfl
    have h2 : (((acc ++ [(a.1, a.2)]) ++ t).map Prod.fst).Nodup := by
      rw [← hre]
      exact h
    rw [ih (acc ++ [(a.1, a.2)]) h2, ← hre]

theorem deepNormalize_idem (v : JsonVal) :
    deepNormalize (deepNormalize v) = deepNormalize v := by
  have H : ∀ (n : Nat) (v : JsonVal), sizeOf v ≤ n →
      deepNormalize (deepNormalize v) = deepNormalize v := by
    intro n
    induction n with
    | zero =>
      intro v hv
      exfalso
      cases v <;> simp at hv
    | succ n ih =>
      intro v hv
      cases v with
      | null => rfl
      | bool b => rfl
      | num q => rfl
      | str s =>
        by_cases hnum : isNumericString (jsTrimL s.data) = true
        · have h2 : deepNormalize (.str s) =
              .num (parseNumber (jsTrimL s.data)) := by
            show coerceValue (.str s) = _
            simp only [coerceValue, hnum, if_true]
          rw [h2]
          rfl
        · have h2 : deepNormalize (.str s) = .str s := by
            show coerceValue (.str s) = _
            simp only [coerceValue]
            rw [if_neg hnum]
          rw [h2, h2]
      | arr l =>
        rw [deepNormalize_arr, deepNormalize_arr, List.map_map]
        congr 1
        refine List.map_congr_left (fun x hx => ?_)
        have hs : sizeOf x ≤ n := by
          have h1 := List.sizeOf_lt_of_mem hx
          have h2 : sizeOf (JsonVal.arr l) = 1 + sizeOf l := by
            simp
          omega
        simp only [Function.comp_apply]
        exact ih x hs
      | obj l =>
        rw [deepNormalize_obj, deepNormalize_obj]
        congr 1
        have hFfix :
            ((l.map (fun e => (sanitizeKey e.1, deepNormalize e.2))).foldl
                (fun acc kv => objInsert acc kv.1 kv.2) []).map
              (fun e => (sanitizeKey e.1, deepNormalize e.2)) =
            (l.map (fun e => (sanitizeKey e.1, deepNormalize e.2))).foldl
              (fun acc kv => objInsert acc kv.1 kv.2) [] := by
          have hmem : ∀ x ∈ (l.map
              (fun e => (sanitizeKey e.1, deepNormalize e.2))).foldl
                (fun acc kv => objInsert acc kv.1 kv.2) [],
              (sanitizeKey x.1, deepNormalize x.2) = x := by
            intro x hx
            rcases mem_foldl_objInsert hx with h1 | h1
            · simp at h1
            · rcases List.mem_map.mp h1 with ⟨e, he, heq⟩
              have hs : sizeOf e.2 ≤ n := by
                have h1' := List.sizeOf_lt_of_mem he
                have h2' : sizeOf (JsonVal.obj l) = 1 + sizeOf l := by
                  simp
                have h3' : sizeOf e.2 < sizeOf e := by
                  obtain ⟨a, b⟩ := e
                  simp
                omega
              subst heq
              simp only [sanitizeKey_idem, ih e.2 hs]
          conv_rhs => rw [← List.map_id ((l.map
            (fun e => (sanitizeKey e.1, deepNormalize e.2))).foldl
              (fun acc kv => objInsert acc kv.1 kv.2) [])]
          exact List.map_congr_left (fun x hx => hmem x hx)
        rw [hFfix]
        have hnodup : ((([] : List (String × JsonVal)) ++
            (l.map (fun e => (sanitizeKey e.1, deepNormalize e.2))).foldl
              (fun acc kv => objInsert acc kv.1 kv.2) []).map
            Prod.fst).Nodup := by
          simp only [List.nil_append]
          exact keysNodup_foldl (by simp)
        have := foldl_objInsert_of_nodup
          ((l.map (fun e => (sanitizeKey e.1, deepNormalize e.2))).foldl
            (fun acc kv => objInsert acc kv.1 kv.2) []) [] hnodup
        simpa using this
  exact H (sizeOf v) v le_rfl

/-- C10: the generic normalization pass is idempotent — `sanitizeKey` maps
its own output to itself (already-sanitized keys, preserved tickers and
preserved ISO dates are fixed points), `coerceValue` maps its own output to
itself, and consequently `deepNormalize (deepNormalize v) = deepNormalize v`
for every JSON-like value, so re-normalizing an already-normalized payload
never changes it. -/
theorem claim_C10 :
    (∀ s : String, sanitizeKey (sanitizeKey s) = sanitizeKey s) ∧
    (∀ v : JsonVal, coerceValue (coerceValue v) = coerceValue v) ∧
    (∀ v : JsonVal, deepNormalize (deepNormalize v) = deepNormalize v) :=
  ⟨sanitizeKey_idem, coerceValue_idem, deepNormalize_idem⟩
